import Mathlib

set_option maxRecDepth 4000

/-!
Verification development for the agentic coding-sandbox server.

The definitions below are a shallow embedding of the TypeScript sources
of the repository, mainly

  - src/server/sandbox.ts      (path sanitizing, command allow-list, sandbox operations)
  - src/server/orchestrator.ts (event stream, streaming chat, structuring,
                                execution ordering, supervisor review loop, abort)

Strings are modelled by Lean String, manipulated through structural
functions on the underlying character lists so that every definition
evaluates by kernel reduction.  Filesystem and shell effects are modelled
by explicit oracles (a World record) passed through the operations;
an operation that performs no effect returns the World unchanged and its
result does not depend on the World.
-/

/- ===== Basic string utilities (character-list level) ===== -/
/-- Boolean test that the first list starts with the second list. -/
def listStartsWith : List Char → List Char → Bool
  | _, [] => true
  | [], _ :: _ => false
  | a :: as, b :: bs => a = b && listStartsWith as bs

/-- Model of the JavaScript String.startsWith method. -/
def strStartsWith (s pre : String) : Bool :=
  listStartsWith s.data pre.data

/-- Model of the JavaScript String.endsWith method. -/
def strEndsWith (s suf : String) : Bool :=
  listStartsWith s.data.reverse suf.data.reverse

/-- Boolean test that the second list occurs as a contiguous segment of the first. -/
def containsSeg : List Char → List Char → Bool
  | hay, needle =>
    match hay with
    | [] => needle.isEmpty
    | _ :: t => listStartsWith hay needle || containsSeg t needle

/-- Model of the JavaScript String.includes method (substring occurrence). -/
def strContains (hay needle : String) : Bool :=
  containsSeg hay.data needle.data

/-- Model of the JavaScript s.slice(0, n): the first n characters of s. -/
def strTake (s : String) (n : Nat) : String :=
  String.mk (s.data.take n)

/-- Splitting a character list at every occurrence of the character c,
keeping empty pieces, as the JavaScript split does. -/
def splitCharAux (c : Char) : List Char → List Char → List (List Char)
  | acc, [] => [acc.reverse]
  | acc, x :: xs =>
    if x = c then acc.reverse :: splitCharAux c [] xs
    else splitCharAux c (x :: acc) xs

/-- Model of the JavaScript s.split(c) for a one-character separator. -/
def splitChar (c : Char) (s : String) : List String :=
  (splitCharAux c [] s.data).map String.mk

/- ===== src/server/sandbox.ts : command allow-list and executeShell ===== -/
/-- The ALLOWED_COMMANDS constant of src/server/sandbox.ts. -/
def ALLOWED_COMMANDS : List String :=
  ["ls", "cat", "head", "tail", "grep", "find", "wc",
   "npm", "npx", "node", "tsc", "eslint", "prettier"]

/-- The MAX_OUTPUT_LENGTH constant of src/server/sandbox.ts. -/
def MAX_OUTPUT_LENGTH : Nat := 10000

/-- The expression command.split(" ")[0] of isCommandAllowed: the characters
of the command up to the first space. -/
def firstToken (command : String) : String :=
  String.mk (command.data.takeWhile (fun c => c ≠ ' '))

/-- The isCommandAllowed function of src/server/sandbox.ts: the first token
must be an allow-listed name, or end in a slash followed by one. -/
def isCommandAllowed (command : String) : Bool :=
  ALLOWED_COMMANDS.any (fun allowed =>
    firstToken command = allowed || strEndsWith (firstToken command) ("/" ++ allowed))

/-- Outcome of one execAsync invocation, supplied by the shell oracle.
The err case carries the error message, the optional process exit code and
the optional captured stdout and stderr, mirroring the fields the source
reads off a rejected execAsync promise. -/
inductive ShellOutcome where
  | ok (stdout stderr : String)
  | err (message : String) (code : Option Int) (stdout stderr : Option String)
deriving DecidableEq

/-- Payloads that sandbox operations place in the data field of a result. -/
inductive SandboxData where
  | str (s : String)
  | strList (xs : List String)
  | fileWritten (path : String)
  | fileDeleted (path : String)
  | dirEntries (entries : List (String × String × String))
  | preview (url : String)
deriving DecidableEq

/-- The SandboxResult envelope of shared/schema.ts.  The logs field holds
optional entries because the source can place an undefined stderr slice
inside the logs array. -/
structure SandboxResult where
  success : Bool
  data : Option SandboxData := none
  error : Option String := none
  logs : Option (List (Option String)) := none
deriving DecidableEq

/-- Oracles for the ambient filesystem and shell: file contents by absolute
path, directory listings by absolute path, and the shell outcome per
command line. -/
structure DirEnt where
  name : String
  isDir : Bool
deriving DecidableEq

structure World where
  files : String → Option String
  dirs : String → Option (List DirEnt)
  shellOut : String → ShellOutcome

/-- The allowed branch of executeShell in src/server/sandbox.ts: run the
command, truncate combined stdout and stderr to MAX_OUTPUT_LENGTH, and on
failure return the message together with truncated captured output. -/
def runShellCmd (w : World) (command : String) : SandboxResult :=
  match w.shellOut command with
  | ShellOutcome.ok stdout stderr =>
    { success := true
    , data := some (SandboxData.str (strTake (stdout ++ stderr) MAX_OUTPUT_LENGTH))
    , logs := if stderr ≠ "" then some [some stderr] else none }
  | ShellOutcome.err msg _ stdout stderr =>
    { success := false
    , error := some msg
    , data := (stdout.map (fun s => SandboxData.str (strTake s MAX_OUTPUT_LENGTH)))
    , logs := some [stderr.map (fun s => strTake s MAX_OUTPUT_LENGTH)] }

/-- The executeShell function of src/server/sandbox.ts. -/
def executeShell (w : World) (command : String) : SandboxResult :=
  if isCommandAllowed command then runShellCmd w command
  else { success := false, error := some ("Command not allowed: " ++ firstToken command) }

/- ===== src/server/sandbox.ts : path sanitizing and file operations =====

Paths are posix strings.  Node path.normalize and path.resolve are modelled
at the level of slash-separated segments: split on the slash character,
drop empty segments, process dot and dot-dot segments against a stack, and
reassemble.  The project root SANDBOX_ROOT (process.cwd()) is an abstract
absolute path passed as a parameter named root. -/
/-- Splitting a path on slashes, dropping the empty segments produced by
repeated or leading slashes. -/
def splitPath (s : String) : List String :=
  ((splitCharAux '/' [] s.data).map String.mk).filter (fun seg => seg ≠ "")

/-- One step of dot-segment processing: skip a dot, pop the stack on a
dot-dot (dropped entirely at the root of an absolute path), push any other
segment.  The stack holds the processed segments in reverse. -/
def normStep (isAbs : Bool) (stack : List String) (seg : String) : List String :=
  if seg = "." then stack
  else if seg = ".." then
    match stack with
    | [] => if isAbs then [] else [".."]
    | top :: rest => if top = ".." then seg :: stack else rest
  else seg :: stack

/-- Dot-segment processing of a whole segment list. -/
def normSegs (isAbs : Bool) (segs : List String) : List String :=
  (segs.foldl (normStep isAbs) []).reverse

/-- Model of Node path.normalize on posix paths.  Trailing-slash
preservation is not modelled: the only use in the source feeds the result
straight into path.resolve, which discards trailing slashes anyway. -/
def pathNormalize (p : String) : String :=
  let isAbs := strStartsWith p "/"
  let segs := normSegs isAbs (splitPath p)
  if isAbs then "/" ++ String.intercalate "/" segs
  else if segs = [] then "." else String.intercalate "/" segs

/-- Model of Node path.resolve(root, p) for an absolute root: an absolute p
stands alone, otherwise p is appended to the root segments, and dot
segments are processed as in an absolute path. -/
def pathResolve (root p : String) : String :=
  let segs :=
    if strStartsWith p "/" then normSegs true (splitPath p)
    else normSegs true (splitPath root ++ splitPath p)
  "/" ++ String.intercalate "/" segs

/-- Model of Node path.join(a, b): concatenate with a slash and normalize. -/
def pathJoin (a b : String) : String :=
  let joined := if a = "" then b else if b = "" then a else a ++ "/" ++ b
  if joined = "" then "." else pathNormalize joined

/-- The forbidden list of sanitizePath in src/server/sandbox.ts. -/
def FORBIDDEN_DIRS : List String := ["node_modules", ".env", ".git", "dist"]

/-- Outcome of sanitizePath: either the resolved absolute path, or the
message of the error thrown by the source (converted to a structured
failure at the dispatch boundary). -/
inductive SanitizeOutcome where
  | ok (resolved : String)
  | error (message : String)
deriving DecidableEq

/-- The sanitizePath function of src/server/sandbox.ts: normalize, resolve
against the root, reject when the resolved string does not start with the
root, then reject when the resolved string contains a forbidden name as a
substring anywhere. -/
def sanitizePath (root filePath : String) : SanitizeOutcome :=
  let normalized := pathNormalize filePath
  let resolved := pathResolve root normalized
  if strStartsWith resolved root = false then SanitizeOutcome.error "Path traversal not allowed"
  else
    match FORBIDDEN_DIRS.find? (fun d => strContains resolved d) with
    | some d => SanitizeOutcome.error ("Access to " ++ d ++ " is not allowed")
    | none => SanitizeOutcome.ok resolved

/-- A sanitizePath failure converted to a result at the dispatch boundary
of executeSandboxCommand.  The stack-trace log entry attached there has no
modelled content and is omitted. -/
def sanitizeFailure (message : String) : SandboxResult :=
  { success := false, error := some message }

/-- The readFile operation of src/server/sandbox.ts composed with the
dispatch boundary that catches the sanitizePath throw. -/
def readFile (w : World) (root p : String) : SandboxResult × World :=
  match sanitizePath root p with
  | SanitizeOutcome.error e => (sanitizeFailure e, w)
  | SanitizeOutcome.ok safePath =>
    match w.files safePath with
    | none => ({ success := false, error := some ("File not found: " ++ p) }, w)
    | some content => ({ success := true, data := some (SandboxData.str content) }, w)

/-- The writeFile operation: sanitize, then write the content at the
resolved path (parent-directory creation has no observable content in the
file oracle and is omitted). -/
def writeFile (w : World) (root p content : String) : SandboxResult × World :=
  match sanitizePath root p with
  | SanitizeOutcome.error e => (sanitizeFailure e, w)
  | SanitizeOutcome.ok safePath =>
    ({ success := true, data := some (SandboxData.fileWritten p) },
     { w with files := fun q => if q = safePath then some content else w.files q })

/-- The deleteFile operation: sanitize, check existence, remove. -/
def deleteFile (w : World) (root p : String) : SandboxResult × World :=
  match sanitizePath root p with
  | SanitizeOutcome.error e => (sanitizeFailure e, w)
  | SanitizeOutcome.ok safePath =>
    match w.files safePath with
    | none => ({ success := false, error := some ("File not found: " ++ p) }, w)
    | some _ =>
      ({ success := true, data := some (SandboxData.fileDeleted p) },
       { w with files := fun q => if q = safePath then none else w.files q })

/-- The listFiles operation: sanitize, then list the directory entries with
name, type and joined relative path. -/
def listFiles (w : World) (root p : String) : SandboxResult × World :=
  match sanitizePath root p with
  | SanitizeOutcome.error e => (sanitizeFailure e, w)
  | SanitizeOutcome.ok safePath =>
    match w.dirs safePath with
    | none => ({ success := false, error := some ("Directory not found: " ++ p) }, w)
    | some entries =>
      ({ success := true
       , data := some (SandboxData.dirEntries (entries.map (fun e =>
          (e.name, if e.isDir then "directory" else "file", pathJoin p e.name)))) }, w)

/-- The grep invocation string built by searchCode. -/
def searchCmd (escapedPattern safePath : String) : String :=
  "grep -rn --include=\"*.ts\" --include=\"*.tsx\" --include=\"*.js\" --include=\"*.jsx\" \""
    ++ escapedPattern ++ "\" " ++ safePath

/-- The searchCode operation: sanitize the search path, strip quotes from
the pattern, run grep through the shell oracle; grep exit code 1 (no match)
is a success with an empty list. -/
def searchCode (w : World) (root pat p : String) : SandboxResult × World :=
  match sanitizePath root p with
  | SanitizeOutcome.error e => (sanitizeFailure e, w)
  | SanitizeOutcome.ok safePath =>
    let escaped := String.mk (pat.data.filter (fun c => c ≠ '\x27' ∧ c ≠ '"'))
    match w.shellOut (searchCmd escaped safePath) with
    | ShellOutcome.ok stdout _ =>
      ({ success := true
       , data := some (SandboxData.strList
          (((splitChar '\n' stdout).filter (fun l => l ≠ "")).take 50)) }, w)
    | ShellOutcome.err msg code _ _ =>
      if code = some 1 then ({ success := true, data := some (SandboxData.strList []) }, w)
      else ({ success := false, error := some msg }, w)

/-- The per-line heuristic checks of lintCheck, for the line with
zero-based index i. -/
def lintLineIssues (filePath : String) (i : Nat) (line : String) : List String :=
  (if strContains line "console.log" = true ∧ strContains filePath "test" = false then
    ["Line " ++ Nat.repr (i + 1) ++ ": console.log statement found"] else [])
  ++ (if strContains line "any" = true ∧ strEndsWith filePath ".ts" = true then
    ["Line " ++ Nat.repr (i + 1) ++ ": \x27any\x27 type usage"] else [])
  ++ (if line.length > 120 then
    ["Line " ++ Nat.repr (i + 1) ++ ": Line exceeds 120 characters"] else [])

/-- Number of occurrences of a character in a string. -/
def countChar (c : Char) (s : String) : Nat :=
  (s.data.filter (fun x => x = c)).length

/-- The issue list computed by lintCheck over a file content. -/
def lintIssues (filePath content : String) : List String :=
  let lines := splitChar '\n' content
  let lineIssues := (lines.enum.map (fun e => lintLineIssues filePath e.1 e.2)).flatten
  let opens : Int := countChar '\x7b' content
  let closes : Int := countChar '\x7d' content
  let braceCount : Int := opens - closes
  lineIssues ++
    (if braceCount ≠ 0 then
      ["Mismatched braces: " ++ (if braceCount > 0 then "missing" else "extra") ++ " "
        ++ Nat.repr braceCount.natAbs ++ " closing brace(s)"] else [])

/-- The lintCheck operation: sanitize, check existence, run the heuristic
checks; success exactly when no issue is found. -/
def lintCheck (w : World) (root p : String) : SandboxResult × World :=
  match sanitizePath root p with
  | SanitizeOutcome.error e => (sanitizeFailure e, w)
  | SanitizeOutcome.ok safePath =>
    match w.files safePath with
    | none => ({ success := false, error := some ("File not found: " ++ p) }, w)
    | some content =>
      let issues := lintIssues p content
      ({ success := issues.isEmpty
       , data := some (if issues.isEmpty then SandboxData.str "No issues found"
                       else SandboxData.strList issues) }, w)

/-- Sample oracle world used to instantiate theorems at concrete inputs:
the shell reports a fixed stdout for every command. -/
def sampleWorld : World :=
  { files := fun _ => none
  , dirs := fun _ => none
  , shellOut := fun _ => ShellOutcome.ok "total 0" "" }

/- ===== src/server/orchestrator.ts : streamChat delivery modes (C7) ===== -/
/-- The chunkSize constant of the block-mode branch of streamChat. -/
def chunkSize : Nat := 50

/-- The re-chunking loop of the block-mode branch of streamChat: slices of
chunkSize characters, in order. -/
def chunkList (cs : List Char) : List (List Char) :=
  if cs = [] then [] else cs.take chunkSize :: chunkList (cs.drop chunkSize)
termination_by cs.length
decreasing_by
  rename_i h
  have hlen : cs.length ≠ 0 := fun hz => h (List.eq_nil_of_length_eq_zero hz)
  simp only [List.length_drop, chunkSize]
  omega

/-- The token chunks emitted by block mode for a given backend text. -/
def blockChunks (content : String) : List String :=
  (chunkList content.data).map String.mk

/-- Cooperative abort schedule: the aborted flag is checked at the top of
each emission loop iteration; abortBefore = some k means the flag became
true before iteration k, none means the run is never aborted. -/
def takeUntilAbort (abortBefore : Option Nat) (l : List String) : List String :=
  match abortBefore with
  | none => l
  | some k => l.take k

/-- Block mode of streamChat: the emitted token events and the returned
full text.  The function returns the complete backend block regardless of
how many chunks were emitted. -/
def streamChatBlock (abortBefore : Option Nat) (content : String) : List String × String :=
  (takeUntilAbort abortBefore (blockChunks content), content)

/-- The incremental-mode loop of streamChat over the fragment sequence:
empty fragments are neither emitted nor accumulated; the accumulated text
is returned. -/
def streamLoop : List String → List String × String
  | [] => ([], "")
  | d :: ds =>
    if d = "" then streamLoop ds
    else (d :: (streamLoop ds).1, d ++ (streamLoop ds).2)

/-- Incremental mode of streamChat: emitted token events and returned
accumulator, under the given abort schedule. -/
def streamChatIncr (abortBefore : Option Nat) (deltas : List String) : List String × String :=
  streamLoop (takeUntilAbort abortBefore deltas)

/-- Concatenation of a list of strings in order. -/
def concatStrings (l : List String) : String :=
  l.foldr (fun a b => a ++ b) ""

/- ===== src/server/orchestrator.ts : executionPhase ordering (C8) ===== -/
/-- The task priority enumeration of shared/schema.ts. -/
inductive TaskPriority where
  | critical
  | high
  | medium
  | low
deriving DecidableEq

/-- The priorityOrder table of executionPhase. -/
def priorityOrder : TaskPriority → Nat
  | TaskPriority.critical => 0
  | TaskPriority.high => 1
  | TaskPriority.medium => 2
  | TaskPriority.low => 3

/-- Projection of an AgentTask to the fields the execution ordering reads. -/
structure ExecTask where
  id : String
  priority : TaskPriority
deriving DecidableEq

/-- Stable insertion of a task into a list by ascending priority rank: the
inserted task goes before the first element of rank not smaller than its
own. -/
def insertByPriority (t : ExecTask) : List ExecTask → List ExecTask
  | [] => [t]
  | u :: us =>
    if priorityOrder t.priority ≤ priorityOrder u.priority then t :: u :: us
    else u :: insertByPriority t us

/-- Stable sort by ascending priority rank.  The source sorts with the
comparator priorityOrder a - priorityOrder b through Array.prototype.sort,
which the ECMAScript specification requires to be stable; a stable sort
with respect to a total preorder has a unique result, realized here by
insertion sort. -/
def sortTasksByPriority : List ExecTask → List ExecTask
  | [] => []
  | t :: ts => insertByPriority t (sortTasksByPriority ts)

/-- The order in which executionPhase processes the run tasks: the sorted
copy of the task list, visited sequentially by the execution loop. -/
def executionOrder (tasks : List ExecTask) : List ExecTask :=
  sortTasksByPriority tasks

/- ===== src/server/orchestrator.ts : event stream and abort (C1) ===== -/
/-- A streaming chunk as written to the SSE channel (timestamp omitted:
it carries no logical content). -/
structure StreamEvent where
  type : String
  content : Option String := none
  error : Option String := none
deriving DecidableEq

/-- The event-relevant state of an AgentOrchestrator: the aborted flag and
the sequence of events written to the response so far. -/
structure OrchStream where
  aborted : Bool
  events : List StreamEvent
deriving DecidableEq

/-- The sendEvent method: a no-op once the aborted flag is set, otherwise
the chunk is appended to the stream. -/
def sendEvent (st : OrchStream) (e : StreamEvent) : OrchStream :=
  if st.aborted then st else { st with events := st.events ++ [e] }

/-- The chunk the abort method passes to sendEvent. -/
def abortEvent : StreamEvent :=
  { type := "error", error := some "Operation aborted by user" }

/-- The abort method: it sets the aborted flag first and only then calls
sendEvent with the abort error chunk. -/
def abortOrchestrator (st : OrchStream) : OrchStream :=
  sendEvent { st with aborted := true } abortEvent

/- ===== src/server/orchestrator.ts : reviewPhase supervisor loop (C2) ===== -/
/-- The constructor default for maxSupervisorRetries. -/
def maxSupervisorRetriesDefault : Nat := 3

/-- The supervisor retry loop of reviewPhase, for a non-aborted run.  The
oracle fb gives the supervisor feedback text of each attempt (attempt
numbers count supervisor invocations).  The fuel argument equals
maxSupervisorRetries minus the current retry counter, so the loop guard
retries < maxSupervisorRetries is fuel > 0.  The result is the number of
worker-fix invocations performed and whether the supervisor passed: on a
feedback containing the marker PASSED the loop stops having passed;
otherwise the retry counter is incremented, and a worker-fix call happens
exactly when retries remain after the increment. -/
def reviewLoop (fb : Nat → String) : Nat → Nat → Nat × Bool
  | 0, _ => (0, false)
  | fuel + 1, attempt =>
    if strContains (fb attempt) "PASSED" then (0, true)
    else
      match fuel with
      | 0 => (0, false)
      | n + 1 =>
        ((reviewLoop fb (n + 1) (attempt + 1)).1 + 1,
         (reviewLoop fb (n + 1) (attempt + 1)).2)

/-- The reviewing phase entered with retry counter zero. -/
def reviewPhase (fb : Nat → String) (maxRetries : Nat) : Nat × Bool :=
  reviewLoop fb maxRetries 0

/-- A supervisor oracle that never returns the PASSED marker. -/
def alwaysNeedsFixes : Nat → String :=
  fun _ => "NEEDS_FIXES: incomplete implementation"

/- ===== src/server/orchestrator.ts : structuringPhase (C3, C4) =====

The structuring phase matches the response against the regular expression
backslash-bracket dot-star backslash-bracket with the dot-matches-all
class, i.e. the span from the first opening bracket that is followed by a
closing bracket, greedily to the last closing bracket of the response.
The span, when present, goes through JSON.parse; JSON values are modelled
by the Json type below, with numbers kept as their literal text (no
floating-point semantics is needed by the orchestrator, which never reads
a numeric field). -/
/-- Index of the first occurrence of a character. -/
def firstIdxOf (c : Char) : List Char → Option Nat
  | [] => none
  | x :: xs => if x = c then some 0 else (firstIdxOf c xs).map (fun i => i + 1)

/-- Index of the last occurrence of a character. -/
def lastIdxOf (c : Char) (cs : List Char) : Option Nat :=
  match firstIdxOf c cs.reverse with
  | none => none
  | some j => some (cs.length - 1 - j)

/-- The value of response.match on the array regular expression: the
greedy span from the first opening bracket to the last closing bracket,
when the first opening bracket precedes the last closing bracket. -/
def matchFirstArraySpan (s : String) : Option String :=
  match firstIdxOf '[' s.data, lastIdxOf ']' s.data with
  | some i, some j =>
    if i < j then some (String.mk ((s.data.drop i).take (j - i + 1))) else none
  | _, _ => none

/-- JSON values.  Numbers carry their source literal. -/
inductive Json where
  | null
  | bool (b : Bool)
  | num (lit : String)
  | str (s : String)
  | arr (elems : List Json)
  | obj (fields : List (String × Json))

/-- JSON whitespace. -/
def isJsonWs (c : Char) : Bool :=
  c = ' ' || c = '\n' || c = '\t' || c = '\r'

/-- Dropping leading JSON whitespace. -/
def skipWs : List Char → List Char
  | [] => []
  | c :: cs => if isJsonWs c then skipWs cs else c :: cs

/-- Value of one hexadecimal digit. -/
def hexVal (c : Char) : Option Nat :=
  if '0' ≤ c ∧ c ≤ '9' then some (c.toNat - '0'.toNat)
  else if 'a' ≤ c ∧ c ≤ 'f' then some (c.toNat - 'a'.toNat + 10)
  else if 'A' ≤ c ∧ c ≤ 'F' then some (c.toNat - 'A'.toNat + 10)
  else none

/-- Parser for the body of a JSON string after the opening quote, with the
standard escapes (astral surrogate pairs are not combined).  Unescaped
control characters are rejected as JSON.parse does. -/
def parseStringBody : Nat → List Char → List Char → Option (String × List Char)
  | 0, _, _ => none
  | fuel + 1, acc, cs =>
    match cs with
    | [] => none
    | '"' :: rest => some (String.mk acc.reverse, rest)
    | '\\' :: rest =>
      (match rest with
      | '"' :: r => parseStringBody fuel ('"' :: acc) r
      | '\\' :: r => parseStringBody fuel ('\\' :: acc) r
      | '/' :: r => parseStringBody fuel ('/' :: acc) r
      | 'n' :: r => parseStringBody fuel ('\n' :: acc) r
      | 't' :: r => parseStringBody fuel ('\t' :: acc) r
      | 'r' :: r => parseStringBody fuel ('\r' :: acc) r
      | 'b' :: r => parseStringBody fuel ('\x08' :: acc) r
      | 'f' :: r => parseStringBody fuel ('\x0c' :: acc) r
      | 'u' :: h1 :: h2 :: h3 :: h4 :: r =>
        (match hexVal h1, hexVal h2, hexVal h3, hexVal h4 with
        | some a, some b, some c, some d =>
          parseStringBody fuel (Char.ofNat (((a * 16 + b) * 16 + c) * 16 + d) :: acc) r
        | _, _, _, _ => none)
      | _ => none)
    | c :: rest => if c.toNat < 32 then none else parseStringBody fuel (c :: acc) rest

/-- Parser for the optional fraction part of a JSON number. -/
def parseFrac : List Char → Option (List Char × List Char)
  | '.' :: r =>
    let ds := r.takeWhile Char.isDigit
    if ds.isEmpty then none else some ('.' :: ds, r.dropWhile Char.isDigit)
  | cs => some ([], cs)

/-- Parser for the optional exponent part of a JSON number. -/
def parseExp : List Char → Option (List Char × List Char)
  | [] => some ([], [])
  | c :: r =>
    if c = 'e' ∨ c = 'E' then
      let sgnr : List Char × List Char :=
        match r with
        | '+' :: rr => (['+'], rr)
        | '-' :: rr => (['-'], rr)
        | _ => ([], r)
      let ds := sgnr.2.takeWhile Char.isDigit
      if ds.isEmpty then none
      else some (c :: sgnr.1 ++ ds, sgnr.2.dropWhile Char.isDigit)
    else some ([], c :: r)

/-- Parser for a JSON number literal per the JSON grammar (no leading
zeros, mandatory digits around the dot), returning the literal text. -/
def parseNumber (cs : List Char) : Option (Json × List Char) :=
  let sgncs : List Char × List Char :=
    match cs with
    | '-' :: r => (['-'], r)
    | _ => ([], cs)
  let intPart := sgncs.2.takeWhile Char.isDigit
  let rest1 := sgncs.2.dropWhile Char.isDigit
  if intPart.isEmpty then none
  else if intPart.length > 1 ∧ intPart.headD 'x' = '0' then none
  else
    match parseFrac rest1 with
    | none => none
    | some (frac, rest2) =>
      match parseExp rest2 with
      | none => none
      | some (ex, rest3) =>
        some (Json.num (String.mk (sgncs.1 ++ intPart ++ frac ++ ex)), rest3)

mutual

/-- Fueled recursive-descent parser for one JSON value, returning the value
and the unconsumed suffix. -/
def parseValue : Nat → List Char → Option (Json × List Char)
  | 0, _ => none
  | fuel + 1, cs =>
    match skipWs cs with
    | [] => none
    | 'n' :: 'u' :: 'l' :: 'l' :: rest => some (Json.null, rest)
    | 't' :: 'r' :: 'u' :: 'e' :: rest => some (Json.bool true, rest)
    | 'f' :: 'a' :: 'l' :: 's' :: 'e' :: rest => some (Json.bool false, rest)
    | '"' :: rest =>
      (match parseStringBody (rest.length + 1) [] rest with
      | some (s, r) => some (Json.str s, r)
      | none => none)
    | '[' :: rest =>
      (match skipWs rest with
      | ']' :: r => some (Json.arr [], r)
      | _ => parseArrayTail fuel (skipWs rest) [])
    | '\x7b' :: rest =>
      (match skipWs rest with
      | '\x7d' :: r => some (Json.obj [], r)
      | _ => parseObjTail fuel (skipWs rest) [])
    | c :: rest => if c = '-' ∨ c.isDigit then parseNumber (c :: rest) else none

/-- Items of a non-empty JSON array after the opening bracket. -/
def parseArrayTail : Nat → List Char → List Json → Option (Json × List Char)
  | 0, _, _ => none
  | fuel + 1, cs, acc =>
    match parseValue fuel cs with
    | none => none
    | some (v, rest) =>
      match skipWs rest with
      | ',' :: r => parseArrayTail fuel r (acc ++ [v])
      | ']' :: r => some (Json.arr (acc ++ [v]), r)
      | _ => none

/-- Fields of a non-empty JSON object after the opening brace. -/
def parseObjTail : Nat → List Char → List (String × Json) → Option (Json × List Char)
  | 0, _, _ => none
  | fuel + 1, cs, acc =>
    match skipWs cs with
    | '"' :: rest =>
      (match parseStringBody (rest.length + 1) [] rest with
      | none => none
      | some (k, r1) =>
        match skipWs r1 with
        | ':' :: r2 =>
          (match parseValue fuel r2 with
          | none => none
          | some (v, r3) =>
            match skipWs r3 with
            | ',' :: r4 => parseObjTail fuel r4 (acc ++ [(k, v)])
            | '\x7d' :: r4 => some (Json.obj (acc ++ [(k, v)]), r4)
            | _ => none)
        | _ => none)
    | _ => none

end

/-- Model of JSON.parse: parse one value and require that only whitespace
remains.  The fuel is generous: every two units of fuel consume at least
one character. -/
def parseJson (s : String) : Option Json :=
  match parseValue (2 * s.data.length + 4) s.data with
  | some (v, rest) => if (skipWs rest).isEmpty then some v else none
  | none => none

/-- JavaScript property access t.key on a parsed JSON value: defined for
objects (the last binding wins, as later duplicate keys overwrite), and
undefined (none) on every non-object except null, which is handled by the
caller because accessing a property of null throws. -/
def jsonGet (j : Json) (key : String) : Option Json :=
  match j with
  | Json.obj fields => (fields.filter (fun f => f.1 == key)).getLast?.map (fun f => f.2)
  | _ => none

/-- Whether the digits of a number literal before any exponent are all
zero, i.e. the number is zero. -/
def numLitIsZero (lit : String) : Bool :=
  ((lit.data.takeWhile (fun c => c ≠ 'e' ∧ c ≠ 'E')).filter Char.isDigit).all
    (fun c => c = '0')

/-- JavaScript truthiness of a parsed JSON value. -/
def jsTruthy : Json → Bool
  | Json.null => false
  | Json.bool b => b
  | Json.num lit => !(numLitIsZero lit)
  | Json.str s => s != ""
  | Json.arr _ => true
  | Json.obj _ => true

/-- A task record as built by structuringPhase.  The generated id, the
empty logs array and the two creation timestamps carry no logical content
and are omitted; the remaining fields hold the JavaScript values the
source stores, with undefined modelled as none. -/
structure RawTask where
  title : Option Json
  description : Option Json
  status : String
  priority : Json
  assignee : String
  filePath : Option Json

/-- The task built from one entry of the parsed tasks array, per the map
callback of structuringPhase: status todo, assignee worker, priority
defaulted to the string medium when the entry priority is falsy or
missing.  A null entry makes the property access throw, which the
surrounding try converts into the fallback path; this is the none case. -/
def taskFromEntry (t : Json) : Option RawTask :=
  match t with
  | Json.null => none
  | _ => some
    { title := jsonGet t "title"
    , description := jsonGet t "description"
    , status := "todo"
    , priority :=
        (match jsonGet t "priority" with
        | some p => if jsTruthy p then p else Json.str "medium"
        | none => Json.str "medium")
    , assignee := "worker"
    , filePath := jsonGet t "filePath" }

/-- The tasks built from the whole parsed array; none when any entry makes
the map callback throw. -/
def tasksFromEntries : List Json → Option (List RawTask)
  | [] => some []
  | t :: ts =>
    match taskFromEntry t, tasksFromEntries ts with
    | some a, some rest => some (a :: rest)
    | _, _ => none

/-- The single fallback task of the catch branch of structuringPhase:
title is the user goal, description is the raw response, priority high. -/
def fallbackTask (userGoal response : String) : RawTask :=
  { title := some (Json.str userGoal)
  , description := some (Json.str response)
  , status := "todo"
  , priority := Json.str "high"
  , assignee := "worker"
  , filePath := none }

/-- The structuringPhase of src/server/orchestrator.ts, reduced to its
task-materializing content.  First component: the tasks stored on the run.
Second component: the task payloads of the task_update events emitted (the
emission loop sits inside the if-branch guarding a successful match, so
the fallback path and the no-match path emit none).  When the response has
no array span, the if-branch is skipped, nothing throws, and no task is
created.  When the span fails JSON.parse, or parses to a non-array (whose
map method is not a function), or an entry is null, the catch installs the
single fallback task. -/
def structuringPhase (userGoal response : String) : List RawTask × List RawTask :=
  match matchFirstArraySpan response with
  | none => ([], [])
  | some span =>
    match parseJson span with
    | some (Json.arr entries) =>
      (match tasksFromEntries entries with
      | some tasks => (tasks, tasks)
      | none => ([fallbackTask userGoal response], []))
    | some _ => ([fallbackTask userGoal response], [])
    | none => ([fallbackTask userGoal response], [])

/-- Concrete inputs for the structuring theorems. -/
def proseExample : String := "Here is the plan:\n"

def arrayExample : String := "[\x7b\"title\":\"A\",\"priority\":\"high\"\x7d]"

def taskA : RawTask :=
  { title := some (Json.str "A")
  , description := none
  , status := "todo"
  , priority := Json.str "high"
  , assignee := "worker"
  , filePath := none }

def unparseableSpanResponse : String := "plan: [not valid json]"

/- ===== Theorems ===== -/

/-- C6: execute_shell rejects any command whose first token is not
allow-listed, with the fixed command-not-allowed message; in particular
running rm -rf / fails because rm is not allow-listed, while an allowed
command such as ls -la succeeds with combined output truncated to at most
MAX_OUTPUT_LENGTH characters. -/
theorem executeShell_allowlist_and_truncation
    (w : World) (out errout : String)
    (hls : w.shellOut "ls -la" = ShellOutcome.ok out errout) :
    (executeShell w "rm -rf /" =
      { success := false, error := some "Command not allowed: rm" }) ∧
    (∀ cmd, isCommandAllowed cmd = false →
      executeShell w cmd =
        { success := false, error := some ("Command not allowed: " ++ firstToken cmd) }) ∧
    (executeShell w "ls -la").success = true ∧
    (executeShell w "ls -la").data =
      some (SandboxData.str (strTake (out ++ errout) MAX_OUTPUT_LENGTH)) ∧
    (∀ s, (executeShell w "ls -la").data = some (SandboxData.str s) →
      s.length ≤ MAX_OUTPUT_LENGTH) := by
  have hrm : isCommandAllowed "rm -rf /" = false := by decide
  have hls2 : isCommandAllowed "ls -la" = true := by decide
  have hgen : ∀ cmd, isCommandAllowed cmd = false →
      executeShell w cmd =
        { success := false, error := some ("Command not allowed: " ++ firstToken cmd) } := by
    intro cmd hcmd
    simp [executeShell, hcmd]
  refine ⟨?_, hgen, ?_, ?_, ?_⟩
  · rw [hgen "rm -rf /" hrm]
    have hft : ("Command not allowed: " ++ firstToken "rm -rf /") = "Command not allowed: rm" := by
      decide
    rw [hft]
  · simp [executeShell, hls2, runShellCmd, hls]
  · simp [executeShell, hls2, runShellCmd, hls]
  · intro s hs
    simp [executeShell, hls2, runShellCmd, hls] at hs
    subst hs
    show ((out ++ errout).data.take MAX_OUTPUT_LENGTH).length ≤ MAX_OUTPUT_LENGTH
    rw [List.length_take]
    exact min_le_left _ _

/-- Witness for C6 at the sample world: rm -rf / is rejected and ls -la
succeeds. -/
theorem executeShell_allowlist_and_truncation_witness :
    executeShell sampleWorld "rm -rf /" =
      { success := false, error := some "Command not allowed: rm" } ∧
    (executeShell sampleWorld "ls -la").success = true := by
  have h := executeShell_allowlist_and_truncation sampleWorld "total 0" "" rfl
  exact ⟨h.1, h.2.2.1⟩

/-- C10: a command whose first token ends in a slash followed by an
allow-listed name passes the allow-list check, and executeShell proceeds to
run it instead of returning the command-not-allowed failure. -/
theorem executeShell_slash_suffix_allowed
    (w : World) (cmd : String)
    (h : ∃ allowed, allowed ∈ ALLOWED_COMMANDS ∧
          strEndsWith (firstToken cmd) ("/" ++ allowed) = true) :
    isCommandAllowed cmd = true ∧ executeShell w cmd = runShellCmd w cmd := by
  obtain ⟨a, ha, hend⟩ := h
  have hallow : isCommandAllowed cmd = true := by
    unfold isCommandAllowed
    rw [List.any_eq_true]
    exact ⟨a, ha, by rw [hend]; simp⟩
  exact ⟨hallow, by simp [executeShell, hallow]⟩

/-- Witness for C10: the command ./tools/npm install is treated as allowed
and executed. -/
theorem executeShell_slash_suffix_allowed_witness :
    isCommandAllowed "./tools/npm install" = true ∧
    executeShell sampleWorld "./tools/npm install" =
      runShellCmd sampleWorld "./tools/npm install" := by
  exact executeShell_slash_suffix_allowed sampleWorld "./tools/npm install"
    ⟨"npm", by decide, by decide⟩

/-- Helper: when the resolved path escapes the root, sanitizePath yields
the path-traversal error. -/
theorem sanitizePath_escape (root p : String)
    (hesc : strStartsWith (pathResolve root (pathNormalize p)) root = false) :
    sanitizePath root p = SanitizeOutcome.error "Path traversal not allowed" := by
  unfold sanitizePath
  simp [hesc]

/-- C5: for a requested path whose resolution against the project root
escapes the root, every path-taking sandbox operation (read_file,
write_file, delete_file, list_files, search_code, lint_check) returns the
structured path-traversal failure, leaves the world unchanged, and the
result does not depend on the world at all, so no filesystem access
happens.  The remaining operations (execute_shell, get_logs, get_preview)
take no requested path. -/
theorem pathOps_traversal_contained
    (root p : String)
    (hesc : strStartsWith (pathResolve root (pathNormalize p)) root = false) :
    sanitizePath root p = SanitizeOutcome.error "Path traversal not allowed" ∧
    (∀ w, readFile w root p = (sanitizeFailure "Path traversal not allowed", w)) ∧
    (∀ w content, writeFile w root p content = (sanitizeFailure "Path traversal not allowed", w)) ∧
    (∀ w, deleteFile w root p = (sanitizeFailure "Path traversal not allowed", w)) ∧
    (∀ w, listFiles w root p = (sanitizeFailure "Path traversal not allowed", w)) ∧
    (∀ w pat, searchCode w root pat p = (sanitizeFailure "Path traversal not allowed", w)) ∧
    (∀ w, lintCheck w root p = (sanitizeFailure "Path traversal not allowed", w)) := by
  have hsan := sanitizePath_escape root p hesc
  refine ⟨hsan, ?_, ?_, ?_, ?_, ?_, ?_⟩
  · intro w; simp [readFile, hsan]
  · intro w content; simp [writeFile, hsan]
  · intro w; simp [deleteFile, hsan]
  · intro w; simp [listFiles, hsan]
  · intro w pat; simp [searchCode, hsan]
  · intro w; simp [lintCheck, hsan]

/-- Witness for C5: reading ../../etc/passwd from the root
/home/user/project fails with the path-traversal error and touches
nothing. -/
theorem pathOps_traversal_contained_witness :
    sanitizePath "/home/user/project" "../../etc/passwd" =
      SanitizeOutcome.error "Path traversal not allowed" ∧
    readFile sampleWorld "/home/user/project" "../../etc/passwd" =
      (sanitizeFailure "Path traversal not allowed", sampleWorld) := by
  have h := pathOps_traversal_contained "/home/user/project" "../../etc/passwd" (by decide)
  exact ⟨h.1, h.2.1 sampleWorld⟩

/-- C9: whenever the resolved path stays under the root but contains one of
the forbidden names node_modules, .env, .git, dist anywhere as a substring
(not only as a whole path component), sanitizePath rejects it with the
forbidden-path error for the first such name. -/
theorem sanitizePath_forbidden_substring
    (root p : String)
    (hpre : strStartsWith (pathResolve root (pathNormalize p)) root = true)
    (hsub : ∃ d, d ∈ FORBIDDEN_DIRS ∧
      strContains (pathResolve root (pathNormalize p)) d = true) :
    ∃ d0, d0 ∈ FORBIDDEN_DIRS ∧
      strContains (pathResolve root (pathNormalize p)) d0 = true ∧
      sanitizePath root p = SanitizeOutcome.error ("Access to " ++ d0 ++ " is not allowed") := by
  obtain ⟨d, hd, hc⟩ := hsub
  cases hfind : FORBIDDEN_DIRS.find?
      (fun q => strContains (pathResolve root (pathNormalize p)) q) with
  | none =>
    exact absurd hc (by simpa using List.find?_eq_none.mp hfind d hd)
  | some d0 =>
    refine ⟨d0, List.mem_of_find?_eq_some hfind, List.find?_some hfind, ?_⟩
    unfold sanitizePath
    simp [hpre, hfind]

/-- Witness for C9: the path src/distance.ts resolves inside the root yet
contains dist inside an unrelated file name, and is rejected with the
forbidden-path error. -/
theorem sanitizePath_forbidden_substring_witness :
    (∃ d0, d0 ∈ FORBIDDEN_DIRS ∧
      strContains (pathResolve "/home/user/project" (pathNormalize "src/distance.ts")) d0 = true ∧
      sanitizePath "/home/user/project" "src/distance.ts" =
        SanitizeOutcome.error ("Access to " ++ d0 ++ " is not allowed")) ∧
    sanitizePath "/home/user/project" "src/distance.ts" =
      SanitizeOutcome.error "Access to dist is not allowed" := by
  refine ⟨sanitizePath_forbidden_substring "/home/user/project" "src/distance.ts"
    (by decide) ⟨"dist", by decide, by decide⟩, by decide⟩

/-- Helper: concatenating mk-strings equals mk of the flattened lists. -/
theorem concatStrings_map_mk (l : List (List Char)) :
    concatStrings (l.map String.mk) = String.mk l.flatten := by
  induction l with
  | nil => rfl
  | cons a t ih =>
    show String.mk a ++ concatStrings (t.map String.mk) = String.mk ((a :: t).flatten)
    rw [ih]
    rfl

/-- Helper: the block-mode chunks flatten back to the original characters. -/
theorem chunkList_flatten (cs : List Char) : (chunkList cs).flatten = cs := by
  induction cs using chunkList.induct with
  | case1 => rw [chunkList]; rfl
  | case2 cs h ih =>
    rw [chunkList, if_neg h]
    show cs.take chunkSize ++ (chunkList (cs.drop chunkSize)).flatten = cs
    rw [ih]
    exact List.take_append_drop chunkSize cs

/-- Helper: the incremental loop returns the concatenation of what it
emits. -/
theorem streamLoop_concat (ds : List String) :
    concatStrings (streamLoop ds).1 = (streamLoop ds).2 := by
  induction ds with
  | nil => rfl
  | cons d t ih =>
    rw [streamLoop]
    by_cases hd : d = ""
    · rw [if_pos hd]; exact ih
    · rw [if_neg hd]
      show d ++ concatStrings (streamLoop t).1 = d ++ (streamLoop t).2
      rw [ih]

/-- C7: in a non-aborted phase, concatenating the contents of the emitted
token events in order reconstructs exactly the stored full-text result,
both in block mode (fixed 50-character re-chunking) and in incremental
mode. -/
theorem token_events_roundtrip (content : String) (deltas : List String) :
    concatStrings (streamChatBlock none content).1 = (streamChatBlock none content).2 ∧
    concatStrings (streamChatIncr none deltas).1 = (streamChatIncr none deltas).2 := by
  constructor
  · show concatStrings (blockChunks content) = content
    rw [blockChunks, concatStrings_map_mk, chunkList_flatten]
  · exact streamLoop_concat deltas

/-- Helper: insertion keeps the same elements. -/
theorem insertByPriority_perm (t : ExecTask) (l : List ExecTask) :
    List.Perm (insertByPriority t l) (t :: l) := by
  induction l with
  | nil => exact List.Perm.refl _
  | cons u us ih =>
    rw [insertByPriority]
    by_cases h : priorityOrder t.priority ≤ priorityOrder u.priority
    · rw [if_pos h]
    · rw [if_neg h]
      exact List.Perm.trans (List.Perm.cons u ih) (List.Perm.swap t u us)

/-- Helper: membership in an insertion. -/
theorem mem_insertByPriority {x t : ExecTask} {l : List ExecTask}
    (hx : x ∈ insertByPriority t l) : x = t ∨ x ∈ l := by
  have := (insertByPriority_perm t l).mem_iff.mp hx
  simpa using this

/-- Helper: insertion into a rank-sorted list is rank-sorted. -/
theorem insertByPriority_pairwise (t : ExecTask) (l : List ExecTask)
    (hl : List.Pairwise (fun a b => priorityOrder a.priority ≤ priorityOrder b.priority) l) :
    List.Pairwise (fun a b => priorityOrder a.priority ≤ priorityOrder b.priority)
      (insertByPriority t l) := by
  induction l with
  | nil => simp [insertByPriority]
  | cons u us ih =>
    rw [insertByPriority]
    rcases List.pairwise_cons.mp hl with ⟨hu, hus⟩
    by_cases h : priorityOrder t.priority ≤ priorityOrder u.priority
    · rw [if_pos h]
      refine List.pairwise_cons.mpr ⟨?_, hl⟩
      intro x hx
      rcases List.mem_cons.mp hx with rfl | hx
      · exact h
      · exact le_trans h (hu x hx)
    · rw [if_neg h]
      refine List.pairwise_cons.mpr ⟨?_, ih hus⟩
      intro x hx
      rcases mem_insertByPriority hx with rfl | hx
      · exact le_of_not_le h
      · exact hu x hx

/-- Helper: inserting a task of rank k puts it in front of the rank-k
elements, and inserting a task of another rank leaves the rank-k elements
untouched. -/
theorem insertByPriority_filter_rank (t : ExecTask) (l : List ExecTask) (k : Nat) :
    (insertByPriority t l).filter (fun x => priorityOrder x.priority == k) =
      (if priorityOrder t.priority == k then
        t :: l.filter (fun x => priorityOrder x.priority == k)
      else l.filter (fun x => priorityOrder x.priority == k)) := by
  induction l with
  | nil =>
    by_cases hk : priorityOrder t.priority == k
    · simp [insertByPriority, List.filter, hk]
    · simp [insertByPriority, List.filter, hk]
  | cons u us ih =>
    rw [insertByPriority]
    by_cases h : priorityOrder t.priority ≤ priorityOrder u.priority
    · rw [if_pos h]
      by_cases hk : priorityOrder t.priority == k
      · simp [List.filter, hk]
      · simp [List.filter, hk]
    · rw [if_neg h]
      have hult : priorityOrder u.priority < priorityOrder t.priority := lt_of_not_le h
      by_cases hk : (priorityOrder t.priority == k) = true
      · have hks : priorityOrder t.priority = k := by simpa using hk
        have hune : priorityOrder u.priority ≠ k := by omega
        have huk : (priorityOrder u.priority == k) = false := by simpa using hune
        simp [List.filter, huk, ih, hk]
      · have hkf : (priorityOrder t.priority == k) = false := by
          simpa using hk
        by_cases huk : (priorityOrder u.priority == k) = true
        · simp [List.filter, huk, ih, hkf]
        · have hukf : (priorityOrder u.priority == k) = false := by simpa using huk
          simp [List.filter, hukf, ih, hkf]

/-- Helper: the sort preserves, for every rank, the relative order of the
tasks of that rank. -/
theorem sortTasks_filter_rank (ts : List ExecTask) (k : Nat) :
    (sortTasksByPriority ts).filter (fun x => priorityOrder x.priority == k) =
      ts.filter (fun x => priorityOrder x.priority == k) := by
  induction ts with
  | nil => rfl
  | cons t rest ih =>
    rw [sortTasksByPriority, insertByPriority_filter_rank]
    by_cases hk : (priorityOrder t.priority == k) = true
    · simp [List.filter, hk, ih]
    · have hkf : (priorityOrder t.priority == k) = false := by simpa using hk
      simp [List.filter, hkf, ih]

/-- Helper: the sort is a permutation of the input. -/
theorem sortTasks_perm (ts : List ExecTask) :
    List.Perm (sortTasksByPriority ts) ts := by
  induction ts with
  | nil => exact List.Perm.refl _
  | cons t rest ih =>
    rw [sortTasksByPriority]
    exact List.Perm.trans (insertByPriority_perm t (sortTasksByPriority rest))
      (List.Perm.cons t ih)

/-- C8: the executing phase visits the run tasks in a sequence that is a
permutation of the task list, is sorted by ascending priority rank
(critical = 0, high = 1, medium = 2, low = 3), and preserves, within every
rank, the structuring-phase emission order (stable ties). -/
theorem executionPhase_order (ts : List ExecTask) :
    List.Perm (executionOrder ts) ts ∧
    List.Pairwise (fun a b => priorityOrder a.priority ≤ priorityOrder b.priority)
      (executionOrder ts) ∧
    ∀ k, (executionOrder ts).filter (fun x => priorityOrder x.priority == k) =
      ts.filter (fun x => priorityOrder x.priority == k) := by
  refine ⟨sortTasks_perm ts, ?_, fun k => sortTasks_filter_rank ts k⟩
  show List.Pairwise _ (sortTasksByPriority ts)
  induction ts with
  | nil => simp [sortTasksByPriority]
  | cons t rest ih =>
    rw [sortTasksByPriority]
    exact insertByPriority_pairwise t (sortTasksByPriority rest) ih

/-- C1 evidence: abort appends no event at all, because the aborted flag is
set before sendEvent runs and the guard of sendEvent drops the abort error
chunk; afterwards no further event can be emitted either.  The stream
therefore never carries the claimed terminal abort error event. -/
theorem abort_emits_no_event (st : OrchStream) (e : StreamEvent) :
    (abortOrchestrator st).aborted = true ∧
    (abortOrchestrator st).events = st.events ∧
    sendEvent (abortOrchestrator st) e = abortOrchestrator st := by
  unfold abortOrchestrator sendEvent
  simp

/-- C2 (amended): when the supervisor never returns PASSED, the review loop
performs exactly fuel - 1 worker-fix invocations before exiting. -/
theorem reviewLoop_never_passed (fb : Nat → String)
    (hfb : ∀ n, strContains (fb n) "PASSED" = false) :
    ∀ fuel attempt, reviewLoop fb fuel attempt = (fuel - 1, false) := by
  intro fuel
  induction fuel with
  | zero => intro attempt; rfl
  | succ n ih =>
    intro attempt
    cases n with
    | zero =>
      have hstep : reviewLoop fb 1 attempt =
          if strContains (fb attempt) "PASSED" then (0, true) else (0, false) := rfl
      rw [hstep, hfb attempt]
      simp
    | succ m =>
      have hstep : reviewLoop fb (m + 2) attempt =
          if strContains (fb attempt) "PASSED" then (0, true)
          else ((reviewLoop fb (m + 1) (attempt + 1)).1 + 1,
                (reviewLoop fb (m + 1) (attempt + 1)).2) := rfl
      rw [hstep, hfb attempt, ih (attempt + 1)]
      simp

/-- C2 (amended claim): for a run whose supervisor backend never returns a
response containing PASSED, the reviewing phase performs exactly
maxRetries - 1 worker-fix invocations (2 with the default of 3) and then
exits the loop without having passed; the loop terminates normally and the
run is not failed. -/
theorem reviewPhase_retries_exhausted (fb : Nat → String) (maxRetries : Nat)
    (hfb : ∀ n, strContains (fb n) "PASSED" = false) :
    reviewPhase fb maxRetries = (maxRetries - 1, false) :=
  reviewLoop_never_passed fb hfb maxRetries 0

/-- Witness for the amended C2 at a concrete never-passing supervisor. -/
theorem reviewPhase_retries_exhausted_witness :
    reviewPhase alwaysNeedsFixes 5 = (4, false) :=
  reviewPhase_retries_exhausted alwaysNeedsFixes 5 (fun _ => rfl)

/-- Counterexample to C2 as stated: with the default maximum of 3 and a
supervisor that never passes, the number of worker-fix invocations is 2,
not maxSupervisorRetries = 3. -/
theorem reviewPhase_fixcount_counterexample :
    (reviewPhase alwaysNeedsFixes maxSupervisorRetriesDefault).1 = 2 ∧
    (reviewPhase alwaysNeedsFixes maxSupervisorRetriesDefault).1 ≠
      maxSupervisorRetriesDefault := by
  constructor
  · decide
  · decide

/-- Helper: first-index search over an append whose first part misses the
character. -/
theorem firstIdxOf_append_not_mem (c : Char) (l₁ l₂ : List Char) (h : c ∉ l₁) :
    firstIdxOf c (l₁ ++ l₂) = (firstIdxOf c l₂).map (fun i => i + l₁.length) := by
  induction l₁ with
  | nil =>
    cases h2 : firstIdxOf c l₂ <;> simp [h2]
  | cons x xs ih =>
    have hx : ¬ x = c := fun hxc => h (by simp [hxc])
    have hxs : c ∉ xs := fun hm => h (List.mem_cons_of_mem x hm)
    rw [List.cons_append, firstIdxOf, if_neg hx, ih hxs]
    cases h2 : firstIdxOf c l₂ <;> simp [h2]
    omega

/-- Helper: the greedy array-span match on prose (no opening bracket)
followed by a bracketed span returns exactly the bracketed span. -/
theorem matchFirstArraySpan_prose (p s : String)
    (hp : '[' ∉ p.data)
    (hhead : s.data.head? = some '[')
    (hlast : s.data.getLast? = some ']') :
    matchFirstArraySpan (p ++ s) = some s := by
  obtain ⟨mid, hs⟩ : ∃ mid, s.data = '[' :: mid := by
    cases hsd : s.data with
    | nil => rw [hsd] at hhead; exact absurd hhead (by simp)
    | cons a t =>
      rw [hsd] at hhead
      exact ⟨t, by rw [List.head?_cons] at hhead; rw [Option.some_inj] at hhead; rw [hhead]⟩
  have hmid : mid ≠ [] := by
    intro hm
    rw [hs, hm] at hlast
    simp at hlast
  have hdata : (p ++ s).data = p.data ++ s.data := String.data_append p s
  have hfirst : firstIdxOf '[' ((p ++ s).data) = some p.data.length := by
    rw [hdata, firstIdxOf_append_not_mem '[' p.data s.data hp, hs]
    simp [firstIdxOf]
  have hrevhead : s.data.reverse.head? = some ']' := by
    rw [List.head?_reverse]
    exact hlast
  obtain ⟨tr, htr⟩ : ∃ tr, s.data.reverse = ']' :: tr := by
    cases hsr : s.data.reverse with
    | nil => rw [hsr] at hrevhead; exact absurd hrevhead (by simp)
    | cons a t =>
      rw [hsr] at hrevhead
      exact ⟨t, by rw [List.head?_cons] at hrevhead; rw [Option.some_inj] at hrevhead; rw [hrevhead]⟩
  have hlen : s.data.length = mid.length + 1 := by rw [hs]; simp
  have hlast2 : lastIdxOf ']' ((p ++ s).data) =
      some (p.data.length + s.data.length - 1) := by
    unfold lastIdxOf
    rw [hdata, List.reverse_append, htr, List.cons_append, firstIdxOf]
    simp [List.length_append]
  have hmidlen : 0 < mid.length := List.length_pos.mpr hmid
  have hcond : p.data.length < p.data.length + s.data.length - 1 := by omega
  have harith : p.data.length + s.data.length - 1 - p.data.length + 1 = s.data.length := by
    omega
  unfold matchFirstArraySpan
  rw [hfirst, hlast2]
  show (if p.data.length < p.data.length + s.data.length - 1 then
      some (String.mk (((p ++ s).data.drop p.data.length).take
        (p.data.length + s.data.length - 1 - p.data.length + 1)))
    else none) = some s
  rw [if_pos hcond, hdata, List.drop_left, harith, List.take_length]

/-- Helper: one task per parsed entry. -/
theorem tasksFromEntries_length :
    ∀ (es : List Json) (ts : List RawTask),
      tasksFromEntries es = some ts → ts.length = es.length := by
  intro es
  induction es with
  | nil =>
    intro ts h
    simp [tasksFromEntries] at h
    rw [h]
    rfl
  | cons e rest ih =>
    intro ts h
    rw [tasksFromEntries] at h
    cases he : taskFromEntry e with
    | none => rw [he] at h; exact absurd h (by simp)
    | some a =>
      cases hr : tasksFromEntries rest with
      | none => rw [he, hr] at h; exact absurd h (by simp)
      | some bs =>
        rw [he, hr] at h
        simp at h
        rw [← h]
        simp [ih bs hr]

/-- Helper: every materialized task has status todo. -/
theorem taskFromEntry_status (t : Json) (r : RawTask)
    (h : taskFromEntry t = some r) : r.status = "todo" := by
  cases t <;> simp [taskFromEntry] at h <;> rw [← h]

/-- Helper: every task in a materialized list has status todo. -/
theorem tasksFromEntries_status :
    ∀ (es : List Json) (ts : List RawTask),
      tasksFromEntries es = some ts → ∀ t ∈ ts, t.status = "todo" := by
  intro es
  induction es with
  | nil =>
    intro ts h t ht
    simp [tasksFromEntries] at h
    rw [h] at ht
    exact absurd ht (by simp)
  | cons e rest ih =>
    intro ts h t ht
    rw [tasksFromEntries] at h
    cases he : taskFromEntry e with
    | none => rw [he] at h; exact absurd h (by simp)
    | some a =>
      cases hr : tasksFromEntries rest with
      | none => rw [he, hr] at h; exact absurd h (by simp)
      | some bs =>
        rw [he, hr] at h
        simp at h
        rw [← h] at ht
        rcases List.mem_cons.mp ht with rfl | hbs
        · exact taskFromEntry_status e t he
        · exact ih bs hr t hbs

/-- C4: on a response made of prose (holding no opening bracket) followed
by a JSON array span, the structuring phase parses exactly the bracketed
span, not the prose; whenever that span parses to an array whose entries
materialize, the run stores one task per entry, all with status todo, and
one task_update event is emitted per created task. -/
theorem structuring_parses_first_array_span
    (userGoal p s : String)
    (hp : '[' ∉ p.data)
    (hhead : s.data.head? = some '[')
    (hlast : s.data.getLast? = some ']') :
    matchFirstArraySpan (p ++ s) = some s ∧
    ∀ entries tasks,
      parseJson s = some (Json.arr entries) →
      tasksFromEntries entries = some tasks →
      structuringPhase userGoal (p ++ s) = (tasks, tasks) ∧
      tasks.length = entries.length ∧
      ∀ t ∈ tasks, t.status = "todo" := by
  have hspan := matchFirstArraySpan_prose p s hp hhead hlast
  refine ⟨hspan, ?_⟩
  intro entries tasks hparse htasks
  refine ⟨?_, tasksFromEntries_length entries tasks htasks,
    tasksFromEntries_status entries tasks htasks⟩
  simp [structuringPhase, hspan, hparse, htasks]

/-- Witness for C4 at the concrete response of the specification: prose
followed by a one-entry array yields exactly one task titled A with
priority high and status todo, emitted as one task_update event. -/
theorem structuring_parses_first_array_span_witness :
    matchFirstArraySpan (proseExample ++ arrayExample) = some arrayExample ∧
    structuringPhase "goal" (proseExample ++ arrayExample) = ([taskA], [taskA]) ∧
    taskA.status = "todo" ∧ taskA.priority = Json.str "high" ∧
    taskA.title = some (Json.str "A") := by
  have h := structuring_parses_first_array_span "goal" proseExample arrayExample
    (by decide) rfl rfl
  have h2 := h.2 [Json.obj [("title", Json.str "A"), ("priority", Json.str "high")]]
    [taskA] rfl rfl
  exact ⟨h.1, h2.1, rfl, rfl, rfl⟩

/-- C3 (amended claim): a structuring response with no JSON array span
creates no task at all (the guarded branch is skipped and nothing throws),
while the single fallback task - description the raw response verbatim,
priority high - arises exactly from the catch path, e.g. when a span is
present but fails JSON.parse; in neither case is the run failed, and no
task_update event accompanies the fallback task. -/
theorem structuring_fallback_amended (userGoal r : String) :
    (matchFirstArraySpan r = none → structuringPhase userGoal r = ([], [])) ∧
    (∀ span, matchFirstArraySpan r = some span → parseJson span = none →
      structuringPhase userGoal r = ([fallbackTask userGoal r], []) ∧
      (fallbackTask userGoal r).description = some (Json.str r) ∧
      (fallbackTask userGoal r).priority = Json.str "high") := by
  constructor
  · intro h
    simp [structuringPhase, h]
  · intro span hs hparse
    refine ⟨?_, rfl, rfl⟩
    simp [structuringPhase, hs, hparse]

/-- Witness for the amended C3: a bracketless response yields no task, and
a response whose bracketed span is not valid JSON yields exactly the
fallback task. -/
theorem structuring_fallback_amended_witness :
    structuringPhase "goal" "I cannot help with that." = ([], []) ∧
    structuringPhase "goal" unparseableSpanResponse =
      ([fallbackTask "goal" unparseableSpanResponse], []) := by
  exact ⟨(structuring_fallback_amended "goal" "I cannot help with that.").1 rfl,
    ((structuring_fallback_amended "goal" unparseableSpanResponse).2
      "[not valid json]" rfl rfl).1⟩

/-- Counterexample to C3 as stated: a response with no JSON array span
materializes zero tasks, not one fallback task. -/
theorem structuring_no_array_counterexample :
    (structuringPhase "goal" "I could not produce tasks.").1 = [] ∧
    ((structuringPhase "goal" "I could not produce tasks.").1.length = 1 → False) := by
  constructor
  · rfl
  · intro h
    simp [structuringPhase, matchFirstArraySpan] at h
    revert h
    decide
